import Mathlib

/-!
Verification development for the stxn-poc-solvers repository.

The development shallowly embeds the solver / executor core of the
repository: the scheduled-batch policy (`cleanapp_scheduler`), the
price-triggered policy (`limit_order`), the timer executors, the reports
ledger, the transaction guard and the stats path.  Machine integers of the
source (`U256`, `u32`) are modelled as `Nat` with explicit bounds; Rust
`Result` becomes `Except`; a Rust panic becomes `Option.none` of the
embedded function.  Chain interaction (transaction submission, receipts)
is modelled by an explicit outcome datatype that the embedded code
branches on exactly as the source does.
-/

namespace StxnPoc

/-- Ethereum account addresses (`ethers::types::Address`), abstracted to `Nat`:
only identity of addresses matters to the verified code. -/
abbrev Address := Nat

/-- The reports pool `HashMap<Address, U256>` of `reports_aggr.rs`, modelled as
an association list with at most one entry per address. -/
abbrev Ledger := List (Address × Nat)

/-- Size bound of the 256-bit unsigned integers (`U256`) used for on-chain
amounts. -/
def U256_SIZE : Nat := 2 ^ 256

/-- Error enum shared by the solver modules (`solver.rs` of each crate);
`MisleadingSelector` carries the offending app id (an `H256`, abstracted to
`Nat`). -/
inductive SolverError where
  | ParamError (msg : String)
  | ExecError (msg : String)
  | MisleadingSelector (appId : Nat)
  deriving DecidableEq

/-- The `SolverResponse` struct of `cleanapp_scheduler/src/solver.rs`
(the limit-order variant has no `remaining_secs`; it is simply unused
there). -/
structure SolverResponse where
  succeeded : Bool
  message : String
  remaining_secs : Int
  deriving DecidableEq

/-- Lookup of an account in the reports pool. -/
def ledgerGet : Ledger → Address → Option Nat
  | [], _ => none
  | (a, v) :: rest, acc => if a = acc then some v else ledgerGet rest acc

/-- The `aggregate_report` handler of `cleanapp_scheduler/src/reports_aggr.rs`:
under the pool mutex, `*amount += body.amount` when the account already has an
entry, `insert(account, amount)` otherwise.  The `+=` is `U256` addition of
the `uint` crate, which panics when the sum does not fit in 256 bits; the
panic is modelled as `none`. -/
def aggregate_report : Ledger → Address → Nat → Option Ledger
  | [], account, amount => some [(account, amount)]
  | (a, v) :: rest, account, amount =>
      if a = account then
        if v + amount < U256_SIZE then some ((a, v + amount) :: rest) else none
      else
        (aggregate_report rest account amount).map (fun r => (a, v) :: r)

/-- The fixed maximum batch size, `const MAX_BATCH_SIZE: usize = 100` in
`exec_solver_step` of `cleanapp_scheduler.rs`. -/
def MAX_BATCH_SIZE : Nat := 100

/-- The `exec_solver_step` of `CleanAppSchedulerSolver`
(`cleanapp_scheduler.rs` lines 127-179).  `triggerTime` is the
construction-time parsed cron trigger (`self.trigger_time`), `now` the
current wall-clock second, `reports` the shared reports pool read during the
step.  Timestamps are seconds since the epoch, as in the source. -/
def exec_solver_step (triggerTime : Except SolverError Int) (now : Int)
    (reports : Ledger) : Except SolverError SolverResponse :=
  match triggerTime with
  | .error err => .error err
  | .ok trigger_time =>
      if trigger_time ≤ now then
        if reports.isEmpty then
          .ok ⟨false, "Not triggered, the pool is empty", 0⟩
        else
          .ok ⟨true, "Triggered at " ++ toString now, 0⟩
      else
        if MAX_BATCH_SIZE ≤ reports.length then
          .ok ⟨true, "Triggered at " ++ toString now ++ " as the batch is complete", 0⟩
        else
          .ok ⟨false, "Not triggered yet, the schedule time was not reached yet",
               trigger_time - now⟩

/-- Outcome of the call-breaker transaction submission performed by
`final_exec`: the send can fail, the receipt await can fail, the receipt can
be absent, present without a status, or mined with a `U256` status. -/
inductive TxOutcome where
  | sendErr (msg : String)
  | awaitErr (msg : String)
  | noReceipt
  | noStatus
  | mined (status : Nat)
  deriving DecidableEq

/-- Effect of `final_exec` of `CleanAppSchedulerSolver` (lines 273-321) on
the reports pool together with its return value, as a function of the
submission outcome: the pool is cleared exactly when a receipt with a
positive status was obtained, and the call returns `Ok` with
`succeeded = (status != 0)`, `Ok` with `succeeded = false` when no status was
received, and `ExecError` when the send or the await failed. -/
def final_exec_ledger (pool : Ledger) (out : TxOutcome) :
    Ledger × Except SolverError SolverResponse :=
  match out with
  | .mined status =>
      ((if 0 < status then [] else pool),
       .ok ⟨decide (status ≠ 0), "Transaction status: " ++ toString status, 0⟩)
  | .noReceipt =>
      (pool, .ok ⟨false, "transaction status was not received", 0⟩)
  | .noStatus =>
      (pool, .ok ⟨false, "transaction status was not received", 0⟩)
  | .sendErr m =>
      (pool, .error (.ExecError ("Final execution error: " ++ m)))
  | .awaitErr m =>
      (pool, .error (.ExecError ("Final execution error: " ++ m)))

/-- Ingestion of a sequence of reports into the pool, one `aggregate_report`
call per element; `none` as soon as one ingestion panics. -/
def ingest_all (l : Ledger) : List (Address × Nat) → Option Ledger
  | [] => some l
  | (a, m) :: rest => (aggregate_report l a m).bind (fun l2 => ingest_all l2 rest)

/-- Observable ledger effect of a successful scheduled-batch commit with
concurrent ingestion.  `final_exec` of `cleanapp_scheduler.rs` reads the pool
under a lock that is released as soon as the read loop ends (lines 185-188),
submits the transaction with the pool mutex free, and on a positive receipt
status re-acquires the pool mutex and clears it (lines 287-291).  `mid` is
the list of reports aggregated by `aggregate_report` between that read and
that clear.  The first component is the snapshot the submitted disbursal data
is built from, the second the pool after the clear (`none` when an ingestion
in `mid` panics). -/
def final_exec_concurrent_commit (init : Ledger) (mid : List (Address × Nat)) :
    Ledger × Option Ledger :=
  (init, (ingest_all init mid).map (fun _ => []))

/-- The property the claim states, written from the claim text for comparison
with the embedded commit: every amount ingested concurrently between the
commit read and its clear is either included in the submitted disbursal data
or still present in the ledger after the commit completes. -/
def NoLostIngestion (init : Ledger) (mid : List (Address × Nat)) : Prop :=
  ∀ p ∈ mid,
    ledgerGet (final_exec_concurrent_commit init mid).1 p.1 ≠ none ∨
    (∃ after, (final_exec_concurrent_commit init mid).2 = some after ∧
       ledgerGet after p.1 ≠ none)

/-- C1: for the scheduled-batch policy, `poll_step` (`exec_solver_step`) with
a valid parsed trigger time returns triggered if and only if the current time
is at or past the trigger time and the reports ledger is non-empty, or the
ledger has reached the fixed maximum batch size of 100 entries; in
particular it returns not-triggered for an empty ledger at or past trigger
time. -/
theorem exec_solver_step_trigger_characterization (t now : Int) (reports : Ledger) :
    ∃ r : SolverResponse, exec_solver_step (.ok t) now reports = .ok r ∧
      (r.succeeded = true ↔ ((t ≤ now ∧ reports ≠ []) ∨ MAX_BATCH_SIZE ≤ reports.length)) ∧
      (t ≤ now → reports = [] → r.succeeded = false) := by
  by_cases hle : t ≤ now
  · cases reports with
    | nil =>
        refine ⟨⟨false, "Not triggered, the pool is empty", 0⟩, ?_, ?_, ?_⟩
        · simp [exec_solver_step, hle]
        · simp [MAX_BATCH_SIZE]
        · intro _ _; rfl
    | cons p rest =>
        refine ⟨⟨true, "Triggered at " ++ toString now, 0⟩, ?_, ?_, ?_⟩
        · simp [exec_solver_step, hle]
        · simp [hle]
        · intro _ h; exact absurd h (List.cons_ne_nil p rest)
  · by_cases hbig : MAX_BATCH_SIZE ≤ reports.length
    · refine ⟨⟨true, "Triggered at " ++ toString now ++ " as the batch is complete", 0⟩,
        ?_, ?_, ?_⟩
      · simp [exec_solver_step, hle, hbig]
      · simp [hbig]
      · intro hc; exact absurd hc hle
    · refine ⟨⟨false, "Not triggered yet, the schedule time was not reached yet",
        t - now⟩, ?_, ?_, ?_⟩
      · simp [exec_solver_step, hle, hbig]
      · simp [hle, hbig]
      · intro hc; exact absurd hc hle

/-- Witness for C1 at trigger time 0, current time 5, a one-entry pool. -/
theorem exec_solver_step_trigger_characterization_witness :
    ∃ r : SolverResponse, exec_solver_step (.ok 0) 5 [(1, 2)] = .ok r ∧
      r.succeeded = true := by
  obtain ⟨r, hr, hiff, _⟩ := exec_solver_step_trigger_characterization 0 5 [(1, 2)]
  exact ⟨r, hr, hiff.mpr (Or.inl ⟨by decide, by decide⟩)⟩

/-- C3: a scheduled-batch commit that obtains a receipt with positive status
clears the reports ledger; on a zero receipt status, a missing
receipt/status, or a send or await error, the ledger contents are left
exactly unchanged. -/
theorem final_exec_clears_iff_positive_status (pool : Ledger) (out : TxOutcome) :
    (∀ s, out = .mined s → 0 < s → (final_exec_ledger pool out).1 = []) ∧
    ((∀ s, out = .mined s → s = 0) → (final_exec_ledger pool out).1 = pool) := by
  cases out with
  | mined s =>
      constructor
      · intro s2 h hpos
        cases h
        simp [final_exec_ledger, hpos]
      · intro h
        have hs : s = 0 := h s rfl
        subst hs
        simp [final_exec_ledger]
  | sendErr m => exact ⟨(fun s2 h => nomatch h), fun _ => rfl⟩
  | awaitErr m => exact ⟨(fun s2 h => nomatch h), fun _ => rfl⟩
  | noReceipt => exact ⟨(fun s2 h => nomatch h), fun _ => rfl⟩
  | noStatus => exact ⟨(fun s2 h => nomatch h), fun _ => rfl⟩

/-- Witness for C3: a positive receipt status (1) clears a one-entry pool. -/
theorem final_exec_clears_iff_positive_status_witness :
    (final_exec_ledger [(1, 2)] (.mined 1)).1 = [] :=
  (final_exec_clears_iff_positive_status [(1, 2)] (.mined 1)).1 1 rfl (by decide)

/-- C9 amended: `aggregate_report` adds the ingested amount to the account
running total when the 256-bit sum does not overflow, and creates the entry
when absent; amounts are 256-bit integers whose addition panics on overflow,
not unbounded-precision integers. -/
theorem aggregate_report_accumulates (l : Ledger) (a : Address) (m : Nat) :
    (∀ v, ledgerGet l a = some v → v + m < U256_SIZE →
        ∃ l2, aggregate_report l a m = some l2 ∧ ledgerGet l2 a = some (v + m)) ∧
    (ledgerGet l a = none →
        ∃ l2, aggregate_report l a m = some l2 ∧ ledgerGet l2 a = some m) := by
  induction l with
  | nil =>
      refine ⟨fun v hv => by simp [ledgerGet] at hv, fun _ => ?_⟩
      exact ⟨[(a, m)], rfl, by simp [ledgerGet]⟩
  | cons p rest ih =>
      obtain ⟨b, w⟩ := p
      by_cases hb : b = a
      · subst hb
        constructor
        · intro v hv hlt
          have hw : w = v := by simpa [ledgerGet] using hv
          subst hw
          refine ⟨(b, w + m) :: rest, ?_, ?_⟩
          · simp [aggregate_report, hlt]
          · simp [ledgerGet]
        · intro hnone
          simp [ledgerGet] at hnone
      · constructor
        · intro v hv hlt
          have hv2 : ledgerGet rest a = some v := by simpa [ledgerGet, hb] using hv
          obtain ⟨l2, h2, g2⟩ := ih.1 v hv2 hlt
          refine ⟨(b, w) :: l2, ?_, ?_⟩
          · simp [aggregate_report, hb, h2]
          · simpa [ledgerGet, hb] using g2
        · intro hnone
          have hn2 : ledgerGet rest a = none := by simpa [ledgerGet, hb] using hnone
          obtain ⟨l2, h2, g2⟩ := ih.2 hn2
          refine ⟨(b, w) :: l2, ?_, ?_⟩
          · simp [aggregate_report, hb, h2]
          · simpa [ledgerGet, hb] using g2

/-- Witness for C9: ingesting amount 7 for account 1 holding 5 yields 12. -/
theorem aggregate_report_accumulates_witness :
    ∃ l2, aggregate_report [(1, 5)] 1 7 = some l2 ∧ ledgerGet l2 1 = some 12 :=
  (aggregate_report_accumulates [(1, 5)] 1 7).1 5 (by decide) (by decide)

/-- C9 counterexample: the amounts are not unbounded-precision integers.
Ingesting the maximal 256-bit amount and then 1 for the same account makes
the addition panic instead of yielding the mathematical sum. -/
theorem aggregate_report_overflow_panics :
    ((aggregate_report [] 1 (U256_SIZE - 1)).bind fun l => aggregate_report l 1 1) = none ∧
    ¬ ∃ l2, ((aggregate_report [] 1 (U256_SIZE - 1)).bind
        fun l => aggregate_report l 1 1) = some l2 ∧ ledgerGet l2 1 = some U256_SIZE := by
  have h : ((aggregate_report [] 1 (U256_SIZE - 1)).bind
      fun l => aggregate_report l 1 1) = none := by decide
  exact ⟨h, fun ⟨l2, h2, _⟩ => by rw [h] at h2; cases h2⟩

/-- C2: the claim that no concurrently ingested amount can be lost between a
successful commit read and its clear fails on the code: the pool mutex is
released between the read and the clear, so a report aggregated in the gap
is wiped by the clear without having been read into the disbursal data.
Initial pool has account 1 with amount 3; account 2 ingests 5 during the
submission; the snapshot omits account 2 and the cleared pool is empty. -/
theorem final_exec_loses_concurrent_ingestion :
    ¬ NoLostIngestion [(1, 3)] [(2, 5)] := by
  intro h
  rcases h (2, 5) (List.mem_singleton.mpr rfl) with hfst | ⟨after, hafter, hget⟩
  · exact hfst (by decide)
  · have he : (final_exec_concurrent_commit [(1, 3)] [(2, 5)]).2 = some [] := by decide
    rw [he] at hafter
    cases hafter
    exact hget rfl

/-- Executor lifecycle status (`stats.rs` `Status`). -/
inductive Status where
  | running
  | succeeded
  | failed
  | timeout
  deriving DecidableEq

/-- Commit-pipeline sub-status (`stats.rs` `TransactionStatus`). -/
inductive TransactionStatus where
  | succeeded
  | stepFailed
  | transactionFailed
  | stepPending
  | transactionPending
  | notExecuted
  deriving DecidableEq

/-- The observable core of one emitted `TimerExecutorStats` record: lifecycle
status, sub-status and message.  Identity, timing and parameter fields do
not affect the control flow verified here and are omitted. -/
structure Record where
  status : Status
  transaction_status : TransactionStatus
  message : String
  deriving DecidableEq

/-- Result of one `exec_solver_step` call as seen by the executor. -/
inductive StepResult where
  | ok (succeeded : Bool) (message : String)
  | err (message : String)
  deriving DecidableEq

/-- Result of one `final_exec` call as seen by the executor. -/
inductive CommitResult where
  | ok (succeeded : Bool) (message : String)
  | err (message : String)
  deriving DecidableEq

/-- Behaviour of the solver at each tick: the step result, and the commit
result the solver would produce if the executor committed at that tick. -/
abbrev TickScript := Nat → StepResult × CommitResult

/-- Observable outcome of an executor run: the stats records emitted in
order, the number of `final_exec` invocations, and the terminal state. -/
structure RunResult (F : Type) where
  records : List Record
  commits : Nat
  final : F
  deriving DecidableEq

/-- Terminal states of the scheduled-batch executor loop. -/
inductive CaOutcome where
  | succeeded
  | failed
  deriving DecidableEq

/-- Terminal states of the price-triggered executor loop
(`limit_order/src/timer_executor.rs` terminates only by a successful commit
or by the deadline). -/
inductive LoOutcome where
  | succeeded
  | timeout
  deriving DecidableEq

/-- The polling loop of `cleanapp_scheduler/src/timer_executor.rs::execute`
(lines 69-161), driven by `script`; `i` is the tick index, `fuel` the
observation horizon (the loop itself has no deadline check and is exited
only by a commit).  `final = none` means the executor is still polling when
the horizon is reached. -/
def ca_execute (script : TickScript) : Nat → Nat → RunResult (Option CaOutcome)
  | _, 0 => ⟨[], 0, none⟩
  | i, fuel + 1 =>
    match (script i).1 with
    | .err m =>
        let rest := ca_execute script (i + 1) fuel
        ⟨⟨.failed, .stepFailed, m⟩ :: rest.records, rest.commits, rest.final⟩
    | .ok false m =>
        let rest := ca_execute script (i + 1) fuel
        ⟨⟨.running, .stepPending, m⟩ :: rest.records, rest.commits, rest.final⟩
    | .ok true m =>
        match (script i).2 with
        | .ok true m2 =>
            ⟨[⟨.running, .transactionPending, m⟩, ⟨.succeeded, .succeeded, m2⟩],
             1, some .succeeded⟩
        | .ok false m2 =>
            ⟨[⟨.running, .transactionPending, m⟩, ⟨.failed, .transactionFailed, m2⟩],
             1, some .failed⟩
        | .err m2 =>
            ⟨[⟨.running, .transactionPending, m⟩, ⟨.failed, .transactionFailed, m2⟩],
             1, some .failed⟩

/-- The polling loop of `limit_order/src/timer_executor.rs::execute`
(lines 74-186), driven by `script`; `fuel` is the number of loop iterations
the deadline still admits (`while now.elapsed() < time_limit`), `lastSt` and
`lastMsg` the mutable `last_transaction_status` / `last_message` of the
source (`last_message` is updated only by `Ok` step and commit responses).
When the fuel is exhausted the loop exits and emits the post-exec Timeout
record carrying them. -/
def lo_execute (script : TickScript) :
    Nat → Nat → TransactionStatus → String → RunResult LoOutcome
  | _, 0, lastSt, lastMsg => ⟨[⟨.timeout, lastSt, lastMsg⟩], 0, .timeout⟩
  | i, fuel + 1, _, lastMsg =>
    match (script i).1 with
    | .err m =>
        let rest := lo_execute script (i + 1) fuel .stepFailed lastMsg
        ⟨⟨.failed, .stepFailed, m⟩ :: rest.records, rest.commits, rest.final⟩
    | .ok false m =>
        let rest := lo_execute script (i + 1) fuel .stepPending m
        ⟨⟨.running, .stepPending, m⟩ :: rest.records, rest.commits, rest.final⟩
    | .ok true m =>
        match (script i).2 with
        | .ok true m2 =>
            ⟨[⟨.running, .transactionPending, m⟩, ⟨.succeeded, .succeeded, m2⟩],
             1, .succeeded⟩
        | .ok false m2 =>
            let rest := lo_execute script (i + 1) fuel .transactionPending m2
            ⟨⟨.running, .transactionPending, m⟩ :: ⟨.running, .transactionPending, m2⟩ ::
               rest.records, rest.commits + 1, rest.final⟩
        | .err m2 =>
            let rest := lo_execute script (i + 1) fuel .transactionFailed m
            ⟨⟨.running, .transactionPending, m⟩ :: ⟨.running, .transactionFailed, m2⟩ ::
               rest.records, rest.commits + 1, rest.final⟩

/-- Evolution of the `(last_transaction_status, last_message)` pair of the
price-triggered executor across one polling tick that does not reach a
commit. -/
def lo_track (p : TransactionStatus × String) : StepResult → TransactionStatus × String
  | .err _ => (.stepFailed, p.2)
  | .ok false m => (.stepPending, m)
  | .ok true m => (.transactionPending, m)

/-- The `(last_transaction_status, last_message)` pair after `fuel` polling
ticks starting at tick `i`. -/
def polling_fold (script : TickScript) :
    Nat → Nat → TransactionStatus × String → TransactionStatus × String
  | _, 0, p => p
  | i, fuel + 1, p => polling_fold script (i + 1) fuel (lo_track p (script i).1)

/-- Size bound of Rust `u32`. -/
def U32_SIZE : Nat := 2 ^ 32

/-- The `U256::as_u32` conversion of the ethers `uint` crate: the value when
it fits in 32 bits, a panic otherwise (modelled as `none`). -/
def u256_as_u32 (n : Nat) : Option Nat :=
  if n < U32_SIZE then some n else none

/-- The observable core of the `TimerExecutorStats` struct built by
`send_stats` (with its `sequence_number: u32` field). -/
structure TimerExecutorStats where
  sequence_number : Nat
  app : String
  status : Status
  transaction_status : TransactionStatus
  message : String
  deriving DecidableEq

/-- The `send_stats` helper of the timer executors
(`cleanapp_scheduler/src/timer_executor.rs` lines 164-192 and the analogous
code in the other two crates): the event 256-bit sequence number is
converted with `as_u32` while building the record, so the call panics —
aborting the executor task before any record is sent — whenever the
sequence number does not fit in 32 bits. -/
def send_stats (sequence_number : Nat) (app : String) (status : Status)
    (transaction_status : TransactionStatus) (message : String) :
    Option TimerExecutorStats :=
  (u256_as_u32 sequence_number).map
    (fun s => ⟨s, app, status, transaction_status, message⟩)

/-- Terminal state the scheduled-batch executor reaches from a commit
result. -/
def ca_commit_outcome : CommitResult → CaOutcome
  | .ok true _ => .succeeded
  | .ok false _ => .failed
  | .err _ => .failed

/-- A script whose step always fails with an error. -/
def stepErrScript : TickScript :=
  fun _ => (.err "step failed badly", .err "not reached")

/-- A script whose condition is met on every tick but whose commit is always
a logical failure (zero receipt status). -/
def metFailScript : TickScript :=
  fun _ => (.ok true "Price conditions are met", .ok false "Transaction status: 0")

/-- The step behaviour of the scheduled-batch solver past its trigger time
with a permanently empty pool, fed to the executor as a script. -/
def caEmptyPoolScript : TickScript :=
  fun _ => (.ok false "Not triggered, the pool is empty", .err "not reached")

/-- C5: each pass of the condition-met branch calls commit exactly once; the
scheduled-batch executor performs at most one commit ever and terminates on
any commit outcome, with a logical failure ending in Failed, while the
price-triggered executor continues the poll/commit cycle from the next tick
after a logically failed or erroring commit. -/
theorem commit_once_and_policy_terminality (script : TickScript) :
    (∀ i fuel, (ca_execute script i fuel).commits ≤ 1) ∧
    (∀ i fuel m, (script i).1 = .ok true m →
      (ca_execute script i (fuel + 1)).commits = 1 ∧
      (ca_execute script i (fuel + 1)).final = some (ca_commit_outcome (script i).2)) ∧
    (∀ i fuel lastSt lastMsg m m2, (script i).1 = .ok true m →
      ((script i).2 = .ok false m2 →
        lo_execute script i (fuel + 1) lastSt lastMsg =
          ⟨⟨.running, .transactionPending, m⟩ :: ⟨.running, .transactionPending, m2⟩ ::
             (lo_execute script (i + 1) fuel .transactionPending m2).records,
           (lo_execute script (i + 1) fuel .transactionPending m2).commits + 1,
           (lo_execute script (i + 1) fuel .transactionPending m2).final⟩) ∧
      ((script i).2 = .err m2 →
        lo_execute script i (fuel + 1) lastSt lastMsg =
          ⟨⟨.running, .transactionPending, m⟩ :: ⟨.running, .transactionFailed, m2⟩ ::
             (lo_execute script (i + 1) fuel .transactionFailed m).records,
           (lo_execute script (i + 1) fuel .transactionFailed m).commits + 1,
           (lo_execute script (i + 1) fuel .transactionFailed m).final⟩)) := by
  refine ⟨?_, ?_, ?_⟩
  · intro i fuel
    induction fuel generalizing i with
    | zero => simp [ca_execute]
    | succ fuel ih =>
        cases hs : (script i).1 with
        | ok b m =>
            cases b
            · simpa [ca_execute, hs] using ih (i + 1)
            · cases hc : (script i).2 with
              | ok b2 m2 => cases b2 <;> simp [ca_execute, hs, hc]
              | err m2 => simp [ca_execute, hs, hc]
        | err m => simpa [ca_execute, hs] using ih (i + 1)
  · intro i fuel m hs
    cases hc : (script i).2 with
    | ok b2 m2 => cases b2 <;> simp [ca_execute, hs, hc, ca_commit_outcome]
    | err m2 => simp [ca_execute, hs, hc, ca_commit_outcome]
  · intro i fuel lastSt lastMsg m m2 hs
    constructor
    · intro hc
      simp [lo_execute, hs, hc]
    · intro hc
      simp [lo_execute, hs, hc]

/-- Witness for C5: with the condition met at tick 0 and a zero-status
commit, the scheduled-batch executor performs exactly one commit and ends in
Failed. -/
theorem commit_once_and_policy_terminality_witness :
    (ca_execute metFailScript 0 3).commits = 1 ∧
    (ca_execute metFailScript 0 3).final = some CaOutcome.failed := by
  have h := (commit_once_and_policy_terminality metFailScript).2.1 0 2
    "Price conditions are met" rfl
  simpa [metFailScript, ca_commit_outcome] using h

/-- C6 amended: the price-triggered executor reaching its deadline while no
polling tick succeeded terminates in Timeout and emits a final Timeout
record carrying the tracked `last_transaction_status` and `last_message`;
the scheduled-batch executor has no timeout transition at all and never
emits a Timeout record. -/
theorem deadline_timeout_behavior (script : TickScript) :
    (∀ i fuel lastSt lastMsg,
      (∀ k, k < fuel → ∀ m, (script (i + k)).1 ≠ .ok true m) →
      (lo_execute script i fuel lastSt lastMsg).final = .timeout ∧
      ∃ pre, (lo_execute script i fuel lastSt lastMsg).records =
        pre ++ [⟨.timeout, (polling_fold script i fuel (lastSt, lastMsg)).1,
                  (polling_fold script i fuel (lastSt, lastMsg)).2⟩]) ∧
    (∀ i fuel, ∀ r ∈ (ca_execute script i fuel).records, r.status ≠ .timeout) := by
  constructor
  · intro i fuel lastSt lastMsg h
    induction fuel generalizing i lastSt lastMsg with
    | zero => exact ⟨rfl, [], rfl⟩
    | succ fuel ih =>
        have h0 : ∀ m, (script i).1 ≠ .ok true m := by
          have := h 0 (Nat.succ_pos fuel)
          simpa using this
        have hshift : ∀ k, k < fuel → ∀ m, (script (i + 1 + k)).1 ≠ .ok true m := by
          intro k hk m
          have := h (k + 1) (Nat.succ_lt_succ hk) m
          simpa [Nat.add_assoc, Nat.add_comm 1 k] using this
        cases hs : (script i).1 with
        | ok b msg =>
            cases b
            · obtain ⟨hfin, pre, hpre⟩ := ih (i + 1) .stepPending msg hshift
              refine ⟨by simpa [lo_execute, hs] using hfin,
                ⟨.running, .stepPending, msg⟩ :: pre, ?_⟩
              simp [lo_execute, hs, hpre, polling_fold, lo_track]
            · exact absurd hs (h0 msg)
        | err msg =>
            obtain ⟨hfin, pre, hpre⟩ := ih (i + 1) .stepFailed lastMsg hshift
            refine ⟨by simpa [lo_execute, hs] using hfin,
              ⟨.failed, .stepFailed, msg⟩ :: pre, ?_⟩
            simp [lo_execute, hs, hpre, polling_fold, lo_track]
  · intro i fuel
    induction fuel generalizing i with
    | zero => simp [ca_execute]
    | succ fuel ih =>
        intro r hr
        cases hs : (script i).1 with
        | ok b m =>
            cases b
            · rw [ca_execute] at hr
              simp only [hs] at hr
              rcases List.mem_cons.mp hr with h1 | h1
              · subst h1; simp
              · exact ih (i + 1) r h1
            · cases hc : (script i).2 with
              | ok b2 m2 =>
                  cases b2 <;>
                    · rw [ca_execute] at hr
                      simp only [hs, hc] at hr
                      rcases List.mem_cons.mp hr with h1 | h1
                      · subst h1; simp
                      · rcases List.mem_cons.mp h1 with h2 | h2
                        · subst h2; simp
                        · simp at h2
              | err m2 =>
                  rw [ca_execute] at hr
                  simp only [hs, hc] at hr
                  rcases List.mem_cons.mp hr with h1 | h1
                  · subst h1; simp
                  · rcases List.mem_cons.mp h1 with h2 | h2
                    · subst h2; simp
                    · simp at h2
        | err m =>
            rw [ca_execute] at hr
            simp only [hs] at hr
            rcases List.mem_cons.mp hr with h1 | h1
            · subst h1; simp
            · exact ih (i + 1) r h1

/-- Witness for C6: a two-tick price-triggered run whose steps never succeed
ends in Timeout. -/
theorem deadline_timeout_behavior_witness :
    (lo_execute caEmptyPoolScript 0 2 .notExecuted "").final = LoOutcome.timeout := by
  have h := (deadline_timeout_behavior caEmptyPoolScript).1 0 2 .notExecuted ""
    (by intro k _ m; simp [caEmptyPoolScript])
  exact h.1

/-- C6 counterexample: a scheduled-batch executor whose trigger time 0 has
long elapsed (current time 100) over an empty pool keeps polling — after a
20-tick horizon it has not terminated and no emitted record has status
Timeout, refuting that every executor with a valid elapsed deadline
terminates in Timeout. -/
theorem ca_executor_never_times_out :
    exec_solver_step (.ok 0) 100 [] =
      .ok ⟨false, "Not triggered, the pool is empty", 0⟩ ∧
    (ca_execute caEmptyPoolScript 0 20).final = none ∧
    ∀ r ∈ (ca_execute caEmptyPoolScript 0 20).records, r.status ≠ .timeout :=
  ⟨rfl, by decide, by decide⟩

/-- C7 amended: a polling-step error makes both executors emit a record with
lifecycle status Failed and sub-status StepFailed and then continue polling
from the next tick: the run is exactly the error record followed by the
continuation, so a step error never by itself terminates the executor. -/
theorem step_error_transient (script : TickScript) (i fuel : Nat)
    (lastSt : TransactionStatus) (lastMsg m : String)
    (h : (script i).1 = .err m) :
    lo_execute script i (fuel + 1) lastSt lastMsg =
      ⟨⟨.failed, .stepFailed, m⟩ ::
         (lo_execute script (i + 1) fuel .stepFailed lastMsg).records,
       (lo_execute script (i + 1) fuel .stepFailed lastMsg).commits,
       (lo_execute script (i + 1) fuel .stepFailed lastMsg).final⟩ ∧
    ca_execute script i (fuel + 1) =
      ⟨⟨.failed, .stepFailed, m⟩ :: (ca_execute script (i + 1) fuel).records,
       (ca_execute script (i + 1) fuel).commits,
       (ca_execute script (i + 1) fuel).final⟩ :=
  ⟨by simp [lo_execute, h], by simp [ca_execute, h]⟩

/-- Witness for C7: one erroring tick then deadline exhaustion still reaches
the loop exit, so the error did not terminate the run by itself. -/
theorem step_error_transient_witness :
    (lo_execute stepErrScript 0 1 .notExecuted "").final = LoOutcome.timeout := by
  have h := (step_error_transient stepErrScript 0 0 .notExecuted "" "step failed badly"
    rfl).1
  rw [h]
  rfl

/-- C7 counterexample: the record emitted on a polling-step error has
lifecycle status Failed, not Running — no run emits a record combining
status Running with sub-status StepFailed. -/
theorem step_error_record_not_running :
    (lo_execute stepErrScript 0 1 .notExecuted "").records.head? =
      some ⟨.failed, .stepFailed, "step failed badly"⟩ ∧
    (∀ r ∈ (lo_execute stepErrScript 0 1 .notExecuted "").records,
      ¬(r.status = .running ∧ r.transaction_status = .stepFailed)) ∧
    (∀ r ∈ (ca_execute stepErrScript 0 5).records,
      ¬(r.status = .running ∧ r.transaction_status = .stepFailed)) :=
  ⟨by decide, by decide, by decide⟩

/-- C10: every status emission converts the 256-bit sequence number with
`as_u32`, which panics — aborting the emitting task with no record — exactly
when the sequence number exceeds the 32-bit range, and otherwise builds the
record with the unchanged sequence number. -/
theorem send_stats_panic_iff (seq : Nat) (app : String) (st : Status)
    (tx : TransactionStatus) (msg : String) :
    (send_stats seq app st tx msg = none ↔ U32_SIZE ≤ seq) ∧
    (seq < U32_SIZE → send_stats seq app st tx msg = some ⟨seq, app, st, tx, msg⟩) := by
  by_cases h : seq < U32_SIZE
  · exact ⟨iff_of_false (by simp [send_stats, u256_as_u32, h]) (Nat.not_le.mpr h),
      fun _ => by simp [send_stats, u256_as_u32, h]⟩
  · exact ⟨iff_of_true (by simp [send_stats, u256_as_u32, h]) (Nat.le_of_not_lt h),
      fun hc => absurd hc h⟩

/-- Witness for C10: the smallest out-of-range sequence number panics the
stats path. -/
theorem send_stats_panic_iff_witness :
    send_stats (2 ^ 32) "CLEANAPP.SCHEDULER" .running .stepPending "m" = none :=
  (send_stats_panic_iff (2 ^ 32) "CLEANAPP.SCHEDULER" .running .stepPending "m").1.mpr
    (by decide)

/-- Parameter extraction of `CleanAppSchedulerSolver::new`
(`cleanapp_scheduler.rs` lines 58-115).  `parseCron` models
`cron::Schedule::from_str` followed by `schedule.upcoming(Utc).take(1)`:
`none` is a parse error, `some none` a schedule with no upcoming time,
`some (some t)` the next trigger time.  The result carries the extracted
`(schedule_string, trigger_time)` pair; construction fails with a
`ParamError` when no `CRON` entry parsed (the `schedule_extracted` flag of
the source). -/
def ca_extract (parseCron : String → Option (Option Int)) :
    List (String × String) → (String × Except SolverError Int) × Bool →
    (String × Except SolverError Int) × Bool
  | [], acc => acc
  | ad :: rest, acc =>
      ca_extract parseCron rest
        (if ad.1 = "CRON" then
          match parseCron ad.2 with
          | some upcoming =>
              ((ad.2, match upcoming with
                      | some t => .ok t
                      | none => acc.1.2), true)
          | none =>
              ((ad.2, .error (.ParamError "Error parsing CRON parameter")), acc.2)
        else acc)

/-- `CleanAppSchedulerSolver::new` proper: run the extraction loop from the
initial state (empty schedule string, missing-parameter error, flag down)
and fail with a `ParamError` when the flag never rose. -/
def clean_app_scheduler_new (parseCron : String → Option (Option Int))
    (eventData : List (String × String)) :
    Except SolverError (String × Except SolverError Int) :=
  let result := ca_extract parseCron eventData
    (("", .error (.ParamError "Missing CRON parameter")), false)
  if result.2 then .ok result.1
  else .error (.ParamError "Missing schedule, the solver will not run")

/-- The five event-derived limit-order parameters, each either parsed or
still holding the default error it was initialised with
(`limit_order/src/solvers/limit_order.rs` lines 119-125). -/
structure LoParams where
  give_token : Except String Address
  take_token : Except String Address
  buy_price : Except String Nat
  slippage : Except String Nat
  time_limit : Except String Nat

/-- The default limit-order parameter set before extraction: every field
holds its initialisation error. -/
def lo_params_init : LoParams :=
  ⟨.error "Invalid input length", .error "Invalid input length",
   .error "Invalid length", .error "Invalid length",
   .error "Uninitialized value"⟩

/-- The parameter-extraction loop of `LimitOrderSolver::new` (lines 130-191).
Keys are the keccak hashes of the field names, modelled by the names
themselves (keccak is injective on the five known names).  An unparseable
`give_token` or `take_token` value panics at the address `.unwrap()`
(line 139/149), an unparseable `time_limit` value panics at the
`String::decode(..).unwrap()` or `parse_duration::parse(..).unwrap()`
(lines 182-185) — all modelled as `none` — while an undecodable `buy_price`
or `slippage` value silently leaves the field unset (lines 158-175).
Unknown keys are ignored. -/
def lo_extract_params (parseAddr : String → Option Address)
    (decodeUint : String → Option Nat) (decodeStr : String → Option String)
    (parseDur : String → Option Nat) :
    List (String × String) → LoParams → Option LoParams
  | [], p => some p
  | (k, v) :: rest, p =>
      if k = "give_token" then
        match parseAddr v with
        | some a =>
            lo_extract_params parseAddr decodeUint decodeStr parseDur rest
              { p with give_token := .ok a }
        | none => none
      else if k = "take_token" then
        match parseAddr v with
        | some a =>
            lo_extract_params parseAddr decodeUint decodeStr parseDur rest
              { p with take_token := .ok a }
        | none => none
      else if k = "buy_price" then
        lo_extract_params parseAddr decodeUint decodeStr parseDur rest
          (match decodeUint v with
           | some u => { p with buy_price := .ok u }
           | none => p)
      else if k = "slippage" then
        lo_extract_params parseAddr decodeUint decodeStr parseDur rest
          (match decodeUint v with
           | some u => { p with slippage := .ok u }
           | none => p)
      else if k = "time_limit" then
        match decodeStr v with
        | none => none
        | some s =>
            match parseDur s with
            | none => none
            | some d =>
                lo_extract_params parseAddr decodeUint decodeStr parseDur rest
                  { p with time_limit := .ok d }
      else lo_extract_params parseAddr decodeUint decodeStr parseDur rest p

/-- The post-extraction validation of `LimitOrderSolver::new` (lines
193-222): the first still-unset field, in declaration order, aborts the
construction with a `ParamError` naming it. -/
def lo_validate (p : LoParams) : Except SolverError LoParams :=
  match p.give_token with
  | .error e => .error (.ParamError ("Error in the parameter give_token: " ++ e))
  | .ok _ =>
  match p.take_token with
  | .error e => .error (.ParamError ("Error in the parameter take_token: " ++ e))
  | .ok _ =>
  match p.buy_price with
  | .error e => .error (.ParamError ("Error in the parameter buy_price: " ++ e))
  | .ok _ =>
  match p.slippage with
  | .error e => .error (.ParamError ("Error in the parameter slippage: " ++ e))
  | .ok _ =>
  match p.time_limit with
  | .error e => .error (.ParamError ("Error in the parameter time_limit: " ++ e))
  | .ok _ => .ok p

/-- `LimitOrderSolver::new` (`limit_order/src/solvers/limit_order.rs` lines
82-224): selector check, presence check of the two auxiliary contract
addresses, parameter extraction, validation.  The result is `none` when
construction panics, `some (.error e)` when it returns the error `e`,
`some (.ok p)` on success. -/
def limit_order_new (parseAddr : String → Option Address)
    (decodeUint : String → Option Nat) (decodeStr : String → Option String)
    (parseDur : String → Option Nat) (appIdMatches : Bool) (eventAppId : Nat)
    (flashLoanAddr swapPoolAddr : Option Address)
    (mevTimeData : List (String × String)) : Option (Except SolverError LoParams) :=
  if appIdMatches = false then some (.error (.MisleadingSelector eventAppId))
  else if flashLoanAddr = none then
    some (.error (.ParamError "missing address for contract FLASH_LOAN"))
  else if swapPoolAddr = none then
    some (.error (.ParamError "missing adsdress for contract SWAP_POOL"))
  else
    match lo_extract_params parseAddr decodeUint decodeStr parseDur mevTimeData
        lo_params_init with
    | none => none
    | some p => some (lo_validate p)

/-- Per-event outcome at the listener. -/
inductive ListenerOutcome where
  | executorRun
  | dropped
  | taskPanicked
  deriving DecidableEq

/-- Per-event handling of the call-breaker listener
(`call_breaker_listener.rs` lines 71-101): each admitted event is handled in
a freshly spawned task that constructs the solver and runs an executor only
when construction succeeds; a construction error is logged and a panic
aborts only that task. -/
def listener_handle_event (construction : Option (Except SolverError LoParams)) :
    ListenerOutcome :=
  match construction with
  | none => .taskPanicked
  | some (.error _) => .dropped
  | some (.ok _) => .executorRun

/-- The listener loop handles every admitted event of the stream through an
independent spawned task. -/
def listener_process (constructions : List (Option (Except SolverError LoParams))) :
    List ListenerOutcome :=
  constructions.map listener_handle_event

/-- Example instantiation of the external parsers, for concrete runs: the
only valid address string is `0x11` (address 17), integers parse by
`toNat?`, string decoding is the identity, the only valid duration is
`100s`. -/
def exParseAddr : String → Option Address :=
  fun s => if s = "0x11" then some 17 else none

/-- Example `abi::decode` of a 256-bit integer. -/
def exDecodeUint : String → Option Nat :=
  fun s => if s = "5" then some 5 else if s = "3" then some 3 else none

/-- Example `String::decode`. -/
def exDecodeStr : String → Option String := fun s => some s

/-- Example `parse_duration::parse`. -/
def exParseDur : String → Option Nat :=
  fun s => if s = "100s" then some 100 else none

/-- The `schedule_extracted` flag of the cleanapp constructor stays down as
long as every `CRON` entry fails to parse. -/
theorem ca_extract_flag_stays_false (parseCron : String → Option (Option Int))
    (eventData : List (String × String))
    (h : ∀ p ∈ eventData, p.1 = "CRON" → parseCron p.2 = none) :
    ∀ acc, acc.2 = false → (ca_extract parseCron eventData acc).2 = false := by
  induction eventData with
  | nil => intro acc hacc; simpa [ca_extract] using hacc
  | cons ad rest ih =>
      intro acc hacc
      have hrest : ∀ p ∈ rest, p.1 = "CRON" → parseCron p.2 = none :=
        fun p hp => h p (List.mem_cons_of_mem ad hp)
      by_cases hk : ad.1 = "CRON"
      · have hparse := h ad (List.mem_cons_self ad rest) hk
        simp only [ca_extract, hk, hparse, if_pos]
        exact ih hrest _ hacc
      · simp only [ca_extract, hk, if_neg, ite_false]
        exact ih hrest acc hacc

/-- Extraction without any `give_token` entry leaves the `give_token` field
untouched. -/
theorem lo_extract_preserves_give_token (parseAddr : String → Option Address)
    (decodeUint : String → Option Nat) (decodeStr : String → Option String)
    (parseDur : String → Option Nat) :
    ∀ (mevTimeData : List (String × String)) (p q : LoParams),
      (∀ e ∈ mevTimeData, e.1 ≠ "give_token") →
      lo_extract_params parseAddr decodeUint decodeStr parseDur mevTimeData p = some q →
      q.give_token = p.give_token := by
  intro mevTimeData
  induction mevTimeData with
  | nil =>
      intro p q h hx
      have : p = q := by simpa [lo_extract_params] using hx
      rw [← this]
  | cons e rest ih =>
      intro p q h hx
      obtain ⟨k, v⟩ := e
      have hk : k ≠ "give_token" := h (k, v) (List.mem_cons_self (k, v) rest)
      have hrest : ∀ e2 ∈ rest, e2.1 ≠ "give_token" :=
        fun e2 he2 => h e2 (List.mem_cons_of_mem (k, v) he2)
      simp only [lo_extract_params] at hx
      rw [if_neg hk] at hx
      by_cases h1 : k = "take_token"
      · rw [if_pos h1] at hx
        cases hpa : parseAddr v with
        | some a =>
            simp only [hpa] at hx
            simpa using ih _ q hrest hx
        | none => simp [hpa] at hx
      · rw [if_neg h1] at hx
        by_cases h2 : k = "buy_price"
        · rw [if_pos h2] at hx
          cases hdu : decodeUint v with
          | some u =>
              simp only [hdu] at hx
              simpa using ih _ q hrest hx
          | none =>
              simp only [hdu] at hx
              simpa using ih _ q hrest hx
        · rw [if_neg h2] at hx
          by_cases h3 : k = "slippage"
          · rw [if_pos h3] at hx
            cases hdu : decodeUint v with
            | some u =>
                simp only [hdu] at hx
                simpa using ih _ q hrest hx
            | none =>
                simp only [hdu] at hx
                simpa using ih _ q hrest hx
          · rw [if_neg h3] at hx
            by_cases h4 : k = "time_limit"
            · rw [if_pos h4] at hx
              cases hds : decodeStr v with
              | some s =>
                  simp only [hds] at hx
                  cases hpd : parseDur s with
                  | some d =>
                      simp only [hpd] at hx
                      simpa using ih _ q hrest hx
                  | none => simp [hpd] at hx
              | none => simp [hds] at hx
            · rw [if_neg h4] at hx
              simpa using ih _ q hrest hx

/-- C8 amended: a missing required field makes solver construction return a
`ParamError` — shown for the scheduled-batch `CRON` parameter (covering both
an absent entry and an entry whose value fails to parse) and for the
price-triggered `give_token` parameter — while the listener runs an executor
only for a successful construction and handles every admitted event in its
own spawned task, independently of earlier failures. -/
theorem solver_construction_param_errors :
    (∀ (parseCron : String → Option (Option Int)) eventData,
      (∀ p ∈ eventData, p.1 = "CRON" → parseCron p.2 = none) →
      clean_app_scheduler_new parseCron eventData =
        .error (.ParamError "Missing schedule, the solver will not run")) ∧
    (∀ parseAddr decodeUint decodeStr parseDur eventAppId flash swap mevTimeData q,
      (∀ e ∈ mevTimeData, e.1 ≠ "give_token") →
      lo_extract_params parseAddr decodeUint decodeStr parseDur mevTimeData
        lo_params_init = some q →
      limit_order_new parseAddr decodeUint decodeStr parseDur true eventAppId
        (some flash) (some swap) mevTimeData =
        some (.error (.ParamError
          ("Error in the parameter give_token: " ++ "Invalid input length")))) ∧
    (∀ (c : Option (Except SolverError LoParams)),
      (∀ p, c ≠ some (.ok p)) → listener_handle_event c ≠ .executorRun) ∧
    (∀ c cs, listener_process (c :: cs) =
      listener_handle_event c :: listener_process cs) := by
  refine ⟨?_, ?_, ?_, ?_⟩
  · intro parseCron eventData h
    have hflag := ca_extract_flag_stays_false parseCron eventData h
      (("", .error (.ParamError "Missing CRON parameter")), false) rfl
    simp [clean_app_scheduler_new, hflag]
  · intro pa du ds pd eventAppId flash swap mevTimeData q hnone hx
    have hgt := lo_extract_preserves_give_token pa du ds pd mevTimeData
      lo_params_init q hnone hx
    have hinit : lo_params_init.give_token = .error "Invalid input length" := rfl
    rw [hinit] at hgt
    simp [limit_order_new, hx, lo_validate, hgt]
  · intro c hc
    match c with
    | none => simp [listener_handle_event]
    | some (.error e) => simp [listener_handle_event]
    | some (.ok p) => exact absurd rfl (hc p)
  · intro c cs
    simp [listener_process]

/-- Witness for C8: an event carrying only `take_token` yields the
`give_token` parameter error. -/
theorem solver_construction_param_errors_witness :
    limit_order_new exParseAddr exDecodeUint exDecodeStr exParseDur true 0
      (some 1) (some 2) [("take_token", "0x11")] =
      some (.error (.ParamError
        ("Error in the parameter give_token: " ++ "Invalid input length"))) := by
  refine solver_construction_param_errors.2.1 exParseAddr exDecodeUint exDecodeStr
    exParseDur 0 1 2 [("take_token", "0x11")]
    ⟨.error "Invalid input length", .ok 17, .error "Invalid length",
     .error "Invalid length", .error "Uninitialized value"⟩ ?_ ?_
  · intro e he
    simp only [List.mem_singleton] at he
    rw [he]
    decide
  · rfl

/-- C8 counterexample: an event whose `give_token` value fails to parse makes
construction panic at the address `.unwrap()` instead of returning a
`ParamError` (first two conjuncts), and an event carrying every field the
code checks except `amount` — which the claim lists as required — constructs
successfully. -/
theorem limit_order_new_parse_failure_panics :
    limit_order_new exParseAddr exDecodeUint exDecodeStr exParseDur true 0 (some 1)
      (some 2) [("give_token", "nonsense"), ("take_token", "0x11"), ("buy_price", "5"),
        ("slippage", "3"), ("time_limit", "100s")] = none ∧
    (∀ e, limit_order_new exParseAddr exDecodeUint exDecodeStr exParseDur true 0
      (some 1) (some 2) [("give_token", "nonsense"), ("take_token", "0x11"),
        ("buy_price", "5"), ("slippage", "3"), ("time_limit", "100s")] ≠
      some (.error (.ParamError e))) ∧
    limit_order_new exParseAddr exDecodeUint exDecodeStr exParseDur true 0 (some 1)
      (some 2) [("give_token", "0x11"), ("take_token", "0x11"), ("buy_price", "5"),
        ("slippage", "3"), ("time_limit", "100s")] =
      some (.ok ⟨.ok 17, .ok 17, .ok 5, .ok 3, .ok 100⟩) := by
  have h0 : limit_order_new exParseAddr exDecodeUint exDecodeStr exParseDur true 0
      (some 1) (some 2) [("give_token", "nonsense"), ("take_token", "0x11"),
        ("buy_price", "5"), ("slippage", "3"), ("time_limit", "100s")] = none := by rfl
  refine ⟨h0, ?_, by rfl⟩
  intro e hc
  rw [h0] at hc
  exact Option.noConfusion hc

/-- Atomic actions of a solver touching the shared transaction guard and the
chain, in the order the source performs them. -/
inductive GAction where
  | acquireGuard
  | submitTx
  | awaitReceipt
  | releaseGuard
  | readPrice
  | readPool
  | clearPool
  deriving DecidableEq

/-- Guard-relevant action sequence of `final_exec` of the limit-order solver
(`limit_order/src/solvers/limit_order.rs` lines 416-462): the guard is
locked, the transaction sent, its receipt awaited, and the guard released
when the surrounding block scope ends — on the success and on every failure
path alike. -/
def lo_final_exec_actions : List GAction :=
  [.acquireGuard, .submitTx, .awaitReceipt, .releaseGuard]

/-- Guard-relevant action sequence of the success path of `final_exec` of
the scheduled-batch solver (`cleanapp_scheduler.rs` lines 181-321): the pool
is read before the guard is taken, then the guard is locked, the transaction
sent and awaited, the pool cleared, and the guard released at scope end. -/
def ca_final_exec_actions : List GAction :=
  [.readPool, .acquireGuard, .submitTx, .awaitReceipt, .clearPool, .releaseGuard]

/-- Guard-relevant action sequence of `final_exec` of the legacy solver
(`src/solvers/limit_order.rs` lines 242-435): it submits and awaits without
ever touching the guard carried by its `SolverParams`. -/
def legacy_final_exec_actions : List GAction :=
  [.submitTx, .awaitReceipt]

/-- Guard-relevant actions of the limit-order `exec_solver_step` (a price
read only). -/
def lo_exec_solver_step_actions : List GAction :=
  [.readPrice]

/-- Guard-relevant actions of the scheduled-batch `exec_solver_step` (a pool
read only). -/
def ca_exec_solver_step_actions : List GAction :=
  [.readPool]

/-- A commit sequence acquires the guard strictly before submitting,
awaits the receipt after the submission, and releases the guard only after
the await completed. -/
def guard_wraps_submission (acts : List GAction) : Prop :=
  ∃ i j k l, i < j ∧ j < k ∧ k < l ∧
    acts.get? i = some .acquireGuard ∧ acts.get? j = some .submitTx ∧
    acts.get? k = some .awaitReceipt ∧ acts.get? l = some .releaseGuard

/-- The claim as stated for one commit sequence: the guard is acquired at
some point strictly before the transaction submission. -/
def acquires_guard_before_submit (acts : List GAction) : Prop :=
  ∃ i j, i < j ∧ acts.get? i = some .acquireGuard ∧ acts.get? j = some .submitTx

/-- Shared state of `n` executors racing on one transaction guard: who holds
the guard, and how many actions of the guarded commit sequence each executor
has completed. -/
structure GuardState (n : Nat) where
  holder : Option (Fin n)
  pc : Fin n → Nat

/-- Semantics of one action on the shared guard (`tokio::sync::Mutex`
semantics): `acquireGuard` blocks while the guard is held and otherwise
takes it, `releaseGuard` gives it back, every other action leaves it
untouched.  `none` means the action cannot fire. -/
def guard_effect {n : Nat} (a : GAction) (holder : Option (Fin n)) (i : Fin n) :
    Option (Option (Fin n)) :=
  match a with
  | .acquireGuard =>
      match holder with
      | none => some (some i)
      | some _ => none
  | .releaseGuard => if holder = some i then some none else none
  | _ => some holder

/-- Interleaving semantics: executor `i` performs the next action of the
guarded commit sequence `lo_final_exec_actions`. -/
inductive CommitStep {n : Nat} : GuardState n → GuardState n → Prop where
  | mk (s : GuardState n) (i : Fin n) (a : GAction) (holder2 : Option (Fin n))
      (ha : lo_final_exec_actions.get? (s.pc i) = some a)
      (heff : guard_effect a s.holder i = some holder2) :
      CommitStep s ⟨holder2, fun j => if j = i then s.pc i + 1 else s.pc j⟩

/-- All executors start outside the commit, with the guard free. -/
def initialGuardState (n : Nat) : GuardState n :=
  ⟨none, fun _ => 0⟩

/-- States the interleaved system can reach from the initial state. -/
def CommitReachable {n : Nat} (s : GuardState n) : Prop :=
  Relation.ReflTransGen CommitStep (initialGuardState n) s

/-- Executor `i` is inside the guarded region: it has acquired the guard and
not yet released it (its submission is in flight or about to be). -/
def in_guarded_region {n : Nat} (s : GuardState n) (i : Fin n) : Prop :=
  1 ≤ s.pc i ∧ s.pc i ≤ 3

/-- One interleaved step preserves the guarded-region invariant: if before
the step every executor inside the guarded region holds the guard, the same
holds after it. -/
theorem commit_step_invariant {n : Nat} {s t : GuardState n}
    (hstep : CommitStep s t)
    (ih : ∀ i, in_guarded_region s i → s.holder = some i) :
    ∀ j, in_guarded_region t j → t.holder = some j := by
  cases hstep with
  | mk i a holder2 ha heff =>
      intro j hj
      rcases hj with ⟨hj1, hj2⟩
      simp only at hj1 hj2
      show holder2 = some j
      by_cases hji : j = i
      · subst hji
        rw [if_pos rfl] at hj1 hj2
        rcases hpc : s.pc j with _ | _ | _ | m
        · -- the completed action was acquireGuard
          rw [hpc] at ha
          have hget : lo_final_exec_actions.get? 0 = some GAction.acquireGuard := rfl
          rw [hget] at ha
          injection ha with ha2
          subst ha2
          cases hh : s.holder with
          | none =>
              rw [hh] at heff
              have heq : some (some j) = some holder2 := heff
              injection heq with heq2
              rw [← heq2]
          | some w =>
              rw [hh] at heff
              exact Option.noConfusion heff
        · -- the completed action was submitTx; the region was entered before
          rw [hpc] at ha
          have hget : lo_final_exec_actions.get? 1 = some GAction.submitTx := rfl
          rw [hget] at ha
          injection ha with ha2
          subst ha2
          have heq : some s.holder = some holder2 := heff
          injection heq with heq2
          have hold : s.holder = some j := ih j (by rw [in_guarded_region, hpc]; omega)
          rw [← heq2, hold]
        · -- the completed action was awaitReceipt
          rw [hpc] at ha
          have hget : lo_final_exec_actions.get? 2 = some GAction.awaitReceipt := rfl
          rw [hget] at ha
          injection ha with ha2
          subst ha2
          have heq : some s.holder = some holder2 := heff
          injection heq with heq2
          have hold : s.holder = some j := ih j (by rw [in_guarded_region, hpc]; omega)
          rw [← heq2, hold]
        · -- after a releaseGuard the executor is at pc 4 or past the end
          rw [hpc] at hj2
          omega
      · rw [if_neg hji] at hj1 hj2
        have hold : s.holder = some j := ih j ⟨hj1, hj2⟩
        rcases hpc : s.pc i with _ | _ | _ | _ | m
        · -- another executor acquired while executor j held the guard: blocked
          rw [hpc] at ha
          have hget : lo_final_exec_actions.get? 0 = some GAction.acquireGuard := rfl
          rw [hget] at ha
          injection ha with ha2
          subst ha2
          rw [hold] at heff
          exact Option.noConfusion heff
        · rw [hpc] at ha
          have hget : lo_final_exec_actions.get? 1 = some GAction.submitTx := rfl
          rw [hget] at ha
          injection ha with ha2
          subst ha2
          have heq : some s.holder = some holder2 := heff
          injection heq with heq2
          rw [← heq2, hold]
        · rw [hpc] at ha
          have hget : lo_final_exec_actions.get? 2 = some GAction.awaitReceipt := rfl
          rw [hget] at ha
          injection ha with ha2
          subst ha2
          have heq : some s.holder = some holder2 := heff
          injection heq with heq2
          rw [← heq2, hold]
        · -- executor i released: it held the guard, but so does j — impossible
          rw [hpc] at ha
          have hget : lo_final_exec_actions.get? 3 = some GAction.releaseGuard := rfl
          rw [hget] at ha
          injection ha with ha2
          subst ha2
          have hhi : s.holder = some i := ih i (by rw [in_guarded_region, hpc]; omega)
          rw [hhi] at hold
          injection hold with hold2
          exact absurd hold2.symm hji
        · -- pc past the end of the commit sequence: no action exists
          rw [hpc] at ha
          have hnone : lo_final_exec_actions.get? (m + 1 + 1 + 1 + 1) = none := rfl
          rw [hnone] at ha
          exact Option.noConfusion ha

/-- Invariant of the interleaved commit system: an executor inside the
guarded region is the guard holder. -/
theorem commit_reachable_invariant {n : Nat} {s : GuardState n}
    (h : CommitReachable s) :
    ∀ i, in_guarded_region s i → s.holder = some i := by
  induction h with
  | refl =>
      intro i hi
      exact absurd hi.1 (by simp [initialGuardState])
  | tail hreach hstep ih =>
      exact commit_step_invariant hstep ih

/-- C4 amended: in the current limit-order and scheduled-batch solvers the
commit acquires the guard before submitting and releases it only after the
submission (send plus receipt await) completes, polling never touches the
guard, and under the interleaved semantics at most one executor is inside
the guarded submission region at any reachable state; the legacy solver in
`src/` never acquires the guard it carries. -/
theorem transaction_guard_serializes_commits :
    guard_wraps_submission lo_final_exec_actions ∧
    guard_wraps_submission ca_final_exec_actions ∧
    GAction.acquireGuard ∉ lo_exec_solver_step_actions ∧
    GAction.acquireGuard ∉ ca_exec_solver_step_actions ∧
    ∀ (n : Nat) (s : GuardState n) (i j : Fin n), CommitReachable s →
      in_guarded_region s i → in_guarded_region s j → i = j := by
  refine ⟨⟨0, 1, 2, 3, by decide, by decide, by decide, by decide, by decide,
    by decide, by decide⟩,
    ⟨1, 2, 3, 5, by decide, by decide, by decide, by decide, by decide,
    by decide, by decide⟩, by decide, by decide, ?_⟩
  intro n s i j hreach hi hj
  have h1 := commit_reachable_invariant hreach i hi
  have h2 := commit_reachable_invariant hreach j hj
  rw [h1] at h2
  exact Option.some_inj.mp h2

/-- The state after executor 0 of a one-executor system acquires the
guard. -/
def guardWitnessState : GuardState 1 :=
  ⟨some 0, fun j => if j = 0 then (initialGuardState 1).pc 0 + 1
                    else (initialGuardState 1).pc j⟩

/-- Witness for C4: the post-acquire state is reachable, executor 0 is in
the guarded region there, and mutual exclusion instantiates to it. -/
theorem transaction_guard_serializes_commits_witness :
    in_guarded_region guardWitnessState 0 ∧ (0 : Fin 1) = 0 := by
  have hstep : CommitStep (initialGuardState 1) guardWitnessState :=
    CommitStep.mk (initialGuardState 1) 0 .acquireGuard (some 0) rfl rfl
  have hreach : CommitReachable guardWitnessState :=
    Relation.ReflTransGen.single hstep
  have hin : in_guarded_region guardWitnessState 0 := by
    constructor <;> simp [guardWitnessState, initialGuardState]
  exact ⟨hin, transaction_guard_serializes_commits.2.2.2.2 1 guardWitnessState 0 0
    hreach hin hin⟩

/-- C4 counterexample: the legacy limit-order commit submits its transaction
without ever acquiring the shared guard, refuting the claim that every
commit of executors sharing a guard acquires it before submitting. -/
theorem legacy_final_exec_submits_without_guard :
    GAction.submitTx ∈ legacy_final_exec_actions ∧
    GAction.acquireGuard ∉ legacy_final_exec_actions ∧
    ¬ acquires_guard_before_submit legacy_final_exec_actions := by
  refine ⟨by decide, by decide, ?_⟩
  rintro ⟨i, j, hij, hi, hj⟩
  rcases i with _ | _ | i <;>
    simp [legacy_final_exec_actions, List.get?] at hi

end StxnPoc
